import Mathlib

/-!
Shallow embedding of the dailyschedule crate (src/src/lib.rs).

Time values follow the time 0.1 crate used by the source:
a Timespec is a pair of a second count and a nanosecond count, ordered
lexicographically (the derived Ord of the Rust struct), and a Duration is a
signed total nanosecond count (the crate keeps seconds and a same-signed
sub-second part; its Ord agrees with the total nanosecond order, and
num_seconds truncates toward zero).  Arithmetic that the crate normalizes
(Timespec plus Duration) is embedded with toward-zero div and mod, exactly
as the crate computes it.  Functions that can panic in Rust (unreachable
branches, unwrap, the gen_range assertion) return Option, with none
standing for the panic.
-/

namespace DailySched

/-- Nanoseconds per second. -/
def nsPerSec : Int := 1000000000

/- A Duration of the time 0.1 crate is represented by its total signed
nanosecond count, a plain Int; the Duration namespace holds its
operations. -/

/-- Duration.seconds of the time crate. -/
def Duration.seconds (s : Int) : Int := s * nsPerSec

/-- Duration.num_seconds of the time crate: whole seconds, truncated toward zero. -/
def Duration.num_seconds (d : Int) : Int := Int.tdiv d nsPerSec

/-- Timespec of the time 0.1 crate. -/
structure Timespec where
  sec : Int
  nsec : Int
deriving DecidableEq

/-- Timespec.new of the time crate: stores the two fields verbatim. -/
def Timespec.new (s n : Int) : Timespec := ⟨s, n⟩

/-- Derived lexicographic strict order of the Rust Timespec struct. -/
def Timespec.lt (a b : Timespec) : Prop :=
  a.sec < b.sec ∨ (a.sec = b.sec ∧ a.nsec < b.nsec)

/-- Derived lexicographic order of the Rust Timespec struct. -/
def Timespec.le (a b : Timespec) : Prop :=
  a.sec < b.sec ∨ (a.sec = b.sec ∧ a.nsec ≤ b.nsec)

instance : LT Timespec := ⟨Timespec.lt⟩

instance : LE Timespec := ⟨Timespec.le⟩

instance Timespec.decLt (a b : Timespec) : Decidable (a < b) :=
  inferInstanceAs (Decidable (a.sec < b.sec ∨ (a.sec = b.sec ∧ a.nsec < b.nsec)))

instance Timespec.decLe (a b : Timespec) : Decidable (a ≤ b) :=
  inferInstanceAs (Decidable (a.sec < b.sec ∨ (a.sec = b.sec ∧ a.nsec ≤ b.nsec)))

/-- Total nanosecond count denoted by a Timespec. -/
def Timespec.toNanos (t : Timespec) : Int := t.sec * nsPerSec + t.nsec

/-- Rebuild a Timespec from a total nanosecond count, the way the time
crate normalizes the result of Timespec plus Duration: whole seconds are
taken with truncation toward zero and the remainder keeps the sign of the
total. -/
def Timespec.ofNanos (n : Int) : Timespec :=
  ⟨Int.tdiv n nsPerSec, Int.tmod n nsPerSec⟩

/-- Add of Timespec and Duration from the time crate: convert everything
to one Duration and split it back into seconds and sub-second part. -/
def Timespec.add (t : Timespec) (d : Int) : Timespec :=
  Timespec.ofNanos (t.toNanos + d)

/-- Sub of two Timespec values from the time crate, yielding a Duration. -/
def Timespec.sub (a b : Timespec) : Int := a.toNanos - b.toNanos

/-- Interface of the zoneinfo crate ZoneInfoElement: only the UTC offset
in seconds is consumed by this crate. -/
structure ZoneInfoElement where
  ut_offset : Int
deriving DecidableEq

/-- Interface of the zoneinfo crate ZoneInfo, modelled as the two query
functions the source calls; none models a failed lookup. -/
structure ZoneInfo where
  get_actual_zoneinfo : Timespec → Option ZoneInfoElement
  get_next_transition_time : Timespec → Option (Timespec × ZoneInfoElement)

/-- Local time definition (enum LocalTimeState of the source). -/
inductive LocalTimeState where
  | Unknown : LocalTimeState
  | NoChangePending (info : ZoneInfoElement) : LocalTimeState
  | ChangePending (transition : Timespec) (before after : ZoneInfoElement) : LocalTimeState
deriving DecidableEq

/-- Represents a fixed moment in a day (enum Moment of the source). -/
inductive Moment where
  | LocalTime (offset : Int) : Moment
  | UtcTime (offset : Int) : Moment

/-- Moment::create_timestamp of the source.  The Unknown arm of the inner
match is unreachable! in Rust; none models that panic. -/
def Moment.create_timestamp (m : Moment) (ut_midnight_reference : Timespec)
    (localtime : LocalTimeState) : Option Timespec :=
  match m with
  | Moment.UtcTime offset => some (ut_midnight_reference.add offset)
  | Moment.LocalTime offset =>
    let pre_localtime_cor := ut_midnight_reference.add offset
    match localtime with
    | LocalTimeState.NoChangePending info =>
      some (Timespec.new (pre_localtime_cor.sec - info.ut_offset) pre_localtime_cor.nsec)
    | LocalTimeState.ChangePending transition_time before after =>
      let reftime := Timespec.new (pre_localtime_cor.sec - before.ut_offset)
        pre_localtime_cor.nsec
      let ut_offset := if reftime < transition_time then before.ut_offset else after.ut_offset
      some (Timespec.new (pre_localtime_cor.sec - ut_offset) pre_localtime_cor.nsec)
    | LocalTimeState.Unknown => none

/-- Weekday filter specifier (enum Filter of the source). -/
inductive Filter where
  | Always : Filter
  | MonToFri : Filter
  | Weekend : Filter

/-- Weekday index of at_utc of the time crate: days since the epoch
(floor), with the epoch falling on a Thursday (index 4); 0 is Sunday. -/
def tm_wday (sec : Int) : Int := (sec / 86400 + 4) % 7

/-- Filter::filter_days of the source. -/
def Filter.filter_days (f : Filter) (time : Timespec) (zoneinfo : ZoneInfoElement) : Bool :=
  let ref_time := Timespec.new (time.sec + zoneinfo.ut_offset) time.nsec
  let wday := tm_wday ref_time.sec
  let weekend := wday == 0 || wday == 6
  match f with
  | Filter.Always => true
  | Filter.MonToFri => !weekend
  | Filter.Weekend => weekend

/-- Filter::day_scheduled of the source; none models the unreachable!
panic on an Unknown zone state. -/
def Filter.day_scheduled (f : Filter) (time : Timespec)
    (localtime : LocalTimeState) : Option Bool :=
  match f with
  | Filter.Always => some true
  | Filter.MonToFri | Filter.Weekend =>
    match localtime with
    | LocalTimeState.NoChangePending zoneinfo => some (f.filter_days time zoneinfo)
    | LocalTimeState.ChangePending transition z1 z2 =>
      some (f.filter_days time (if time < transition then z1 else z2))
    | LocalTimeState.Unknown => none

/-- Represent a (abstract) moment in a day (enum DailyEvent of the source). -/
inductive DailyEvent where
  | Fixed (filter : Filter) (moment : Moment) : DailyEvent
  | Fuzzy (filter : Filter) (m1 m2 : Moment) : DailyEvent
  | ByClosure (filter : Filter) (func : Timespec → Moment) (variance : Int) : DailyEvent

/-- Rng::gen_range(low, high) of the rand crate: a uniform draw from the
half-open range, fed here by the raw random value r; the function asserts
low < high and panics otherwise (modelled by none). -/
def gen_range (r low high : Int) : Option Int :=
  if low < high then some (low + r % (high - low)) else none

/-- Represents a moment and a specific action in a day (struct Event of
the source); the handler reference is abstracted to an identifier. -/
structure Event (C : Type) where
  moment : DailyEvent
  action : Nat
  context : C

/-- The filter component of a DailyEvent (the second match of
Event::create_timestamp binds it by pattern). -/
def DailyEvent.filterOf : DailyEvent → Filter
  | DailyEvent.Fixed w _ => w
  | DailyEvent.Fuzzy w _ _ => w
  | DailyEvent.ByClosure w _ _ => w

/-- The candidate instant of Event::create_timestamp (the first let of the
source function): the moment resolution together with the fuzzy and
by-closure randomization; r is the raw value drawn from the thread-local
generator; none models a panic. -/
def Event.candidate {C : Type} (e : Event C) (r : Int)
    (ut_midnight_reference : Timespec) (localtime : LocalTimeState) : Option Timespec :=
  match e.moment with
  | DailyEvent.Fixed _ moment => moment.create_timestamp ut_midnight_reference localtime
  | DailyEvent.Fuzzy _ m1 m2 =>
    match m1.create_timestamp ut_midnight_reference localtime,
        m2.create_timestamp ut_midnight_reference localtime with
    | some t1, some t2 =>
      let t_start := if t1 ≥ t2 then t2 else t1
      let t_end := if t1 ≥ t2 then t1 else t2
      let duration := t_end.sub t_start
      if duration > Duration.seconds 0 then
        match gen_range r 0 (Duration.num_seconds duration) with
        | some off => some (t_start.add (Duration.seconds off))
        | none => none
      else
        some t_start
    | _, _ => none
  | DailyEvent.ByClosure _ func variance =>
    let moment := func ut_midnight_reference
    match (if variance > Duration.seconds 0 then gen_range r 0 (Duration.num_seconds variance)
        else some 0) with
    | some offset =>
      let offset2 := Duration.seconds (Int.tdiv (Duration.num_seconds variance) 2 - offset)
      match moment.create_timestamp ut_midnight_reference localtime with
      | some base => some (base.add offset2)
      | none => none
    | none => none

/-- Event::create_timestamp of the source: the candidate instant guarded
by the weekday filter; some none means the filter rejected the day, the
outer none a panic. -/
def Event.create_timestamp {C : Type} (e : Event C) (r : Int)
    (ut_midnight_reference : Timespec) (localtime : LocalTimeState) :
    Option (Option Timespec) :=
  match e.candidate r ut_midnight_reference localtime with
  | none => none
  | some ts =>
    match (e.moment.filterOf).day_scheduled ts localtime with
    | none => none
    | some do_schedule => some (if do_schedule then some ts else none)

/-- The BTreeMap of the Schedule struct: a key-sorted association list
from Timespec to the vector of events scheduled at that instant. -/
abbrev ScheduleMap (C : Type) := List (Timespec × List (Event C))

/-- BTreeMap::get for a key. -/
def ScheduleMap.getVal {C : Type} : ScheduleMap C → Timespec → Option (List (Event C))
  | [], _ => none
  | (k, es) :: rest, t => if k = t then some es else ScheduleMap.getVal rest t

/-- The list of events stored at a key, empty when the key is absent. -/
def ScheduleMap.lookupList {C : Type} : ScheduleMap C → Timespec → List (Event C)
  | [], _ => []
  | (k, es) :: rest, t => if k = t then es else ScheduleMap.lookupList rest t

/-- BTreeMap::remove for a key. -/
def ScheduleMap.removeKey {C : Type} (m : ScheduleMap C) (t : Timespec) : ScheduleMap C :=
  m.filter (fun p => !(decide (p.1 = t)))

/-- The insertion step of Schedule::update_schedule: push onto the vector
already stored at the key when the map contains it, insert a fresh
one-element vector at the ordered position otherwise. -/
def ScheduleMap.insertEvent {C : Type} : ScheduleMap C → Timespec → Event C → ScheduleMap C
  | [], t, e => [(t, [e])]
  | (k, es) :: rest, t, e =>
    if t = k then (k, es ++ [e]) :: rest
    else if t < k then (t, [e]) :: (k, es) :: rest
    else (k, es) :: ScheduleMap.insertEvent rest t e

/-- Calculates and executes scheduled events every day (struct Schedule
of the source). -/
structure Schedule (C : Type) where
  events : List (Event C)
  zoneinfo : ZoneInfo
  localtime : LocalTimeState
  schedule : ScheduleMap C

/-- Schedule::new of the source. -/
def Schedule.new {C : Type} (zoneinfo : ZoneInfo) : Schedule C :=
  { events := [], zoneinfo := zoneinfo, localtime := LocalTimeState.Unknown, schedule := [] }

/-- Schedule::add_event of the source. -/
def Schedule.add_event {C : Type} (s : Schedule C) (moment : DailyEvent)
    (action : Nat) (context : C) : Schedule C :=
  { s with events := s.events ++ [{ moment := moment, action := action, context := context }] }

/-- Schedule::new_change_state of the source; the unwrap on the zone-info
lookup panics (none) when the source yields nothing. -/
def Schedule.new_change_state {C : Type} (s : Schedule C) (timestamp : Timespec) :
    Option LocalTimeState :=
  match s.zoneinfo.get_actual_zoneinfo timestamp with
  | none => none
  | some actual =>
    match s.zoneinfo.get_next_transition_time timestamp with
    | some (next_change, next) => some (LocalTimeState.ChangePending next_change actual next)
    | none => some (LocalTimeState.NoChangePending actual)

/-- The event loop of Schedule::update_schedule: walk the registered
events in order; for each one that resolves to a timestamp, record the
hint callback and insert the event into the map.  The thread-local
generator is modelled by the stream rng, the event at position i drawing
the raw value rng i. -/
def Schedule.updateLoop {C : Type} (rng : Nat → Int) (ref : Timespec)
    (lt : LocalTimeState) :
    List (Event C) → Nat → ScheduleMap C → List (Timespec × Event C) →
    Option (ScheduleMap C × List (Timespec × Event C))
  | [], _, m, hints => some (m, hints)
  | e :: rest, i, m, hints =>
    match e.create_timestamp (rng i) ref lt with
    | none => none
    | some none => Schedule.updateLoop rng ref lt rest (i + 1) m hints
    | some (some t) =>
      Schedule.updateLoop rng ref lt rest (i + 1) (m.insertEvent t e) (hints ++ [(t, e)])

/-- The first match of Schedule::update_schedule: refresh the zone state
when it is Unknown or when a pending transition time has been reached,
keep the cached one otherwise. -/
def Schedule.refreshLocaltime {C : Type} (s : Schedule C) (ut_midnight_reference : Timespec) :
    Option LocalTimeState :=
  match s.localtime with
  | LocalTimeState.Unknown => s.new_change_state ut_midnight_reference
  | LocalTimeState.ChangePending time _ _ =>
    if time ≤ ut_midnight_reference then s.new_change_state ut_midnight_reference
    else some s.localtime
  | _ => some s.localtime

/-- Schedule::update_schedule of the source: refresh the zone state, then
schedule every registered event for the given reference day.  The second
component of the result is the sequence of hint callbacks made. -/
def Schedule.update_schedule {C : Type} (s : Schedule C) (ut_midnight_reference : Timespec)
    (rng : Nat → Int) : Option (Schedule C × List (Timespec × Event C)) :=
  match s.refreshLocaltime ut_midnight_reference with
  | none => none
  | some lt =>
    match Schedule.updateLoop rng ut_midnight_reference lt s.events 0 s.schedule [] with
    | none => none
    | some (m, hints) => some ({ s with localtime := lt, schedule := m }, hints)

/-- Schedule::kick_event of the source: fire every event stored under a
key at or before now (ascending keys, vector order within a key), drop
those keys, and report the next remaining key.  The middle component of
the result is the sequence of kick callbacks made, each carrying the key
timestamp and the event whose handler and context are passed. -/
def Schedule.kick_event {C : Type} (s : Schedule C) (now : Timespec) :
    Schedule C × List (Timespec × Event C) × Option Timespec :=
  let past_events := (s.schedule.map Prod.fst).filter (fun k => decide (k ≤ now))
  let trace := past_events.flatMap (fun t =>
    match s.schedule.getVal t with
    | some es => es.map (fun e => (t, e))
    | none => [])
  let newmap := past_events.foldl (fun m t => ScheduleMap.removeKey m t) s.schedule
  ({ s with schedule := newmap }, trace, (newmap.map Prod.fst).head?)

/-- Schedule::peek_event of the source. -/
def Schedule.peek_event {C : Type} (s : Schedule C) : Option Timespec :=
  (s.schedule.map Prod.fst).head?

/-- A Timespec whose sub-second part is in canonical range, as every value
produced by the normalizing arithmetic of the time crate on post-epoch
instants is. -/
def Timespec.normalized (t : Timespec) : Prop := 0 ≤ t.nsec ∧ t.nsec < nsPerSec

instance (t : Timespec) : Decidable t.normalized :=
  inferInstanceAs (Decidable (0 ≤ t.nsec ∧ t.nsec < nsPerSec))

/-- The registered events that the update loop files under a given key,
in registration order: a specification-side companion of updateLoop. -/
def selectAt {C : Type} (rng : Nat → Int) (ref : Timespec) (lt : LocalTimeState) :
    List (Event C) → Nat → Timespec → List (Event C)
  | [], _, _ => []
  | e :: rest, i, t =>
    (if e.create_timestamp (rng i) ref lt = some (some t) then [e] else []) ++
      selectAt rng ref lt rest (i + 1) t

/-- A zone-info source reporting a fixed zero offset and no upcoming
transition, for concrete instances. -/
def utcZoneInfo : ZoneInfo :=
  { get_actual_zoneinfo := fun _ => some ⟨0⟩, get_next_transition_time := fun _ => none }

/-- A schedule holding one fixed event at 02:00 UTC with context 5 over a
resolved stable window. -/
def fixedSchedule : Schedule Nat :=
  { events := [⟨DailyEvent.Fixed Filter.Always
        (Moment.UtcTime (Duration.seconds 7200)), 0, 5⟩],
    zoneinfo := utcZoneInfo, localtime := LocalTimeState.NoChangePending ⟨0⟩, schedule := [] }

/-- A schedule holding one fuzzy event between 02:00 and 03:00 UTC over a
resolved stable window. -/
def fuzzySchedule : Schedule Nat :=
  { events := [⟨DailyEvent.Fuzzy Filter.Always
        (Moment.UtcTime (Duration.seconds 7200)) (Moment.UtcTime (Duration.seconds 10800)),
        0, 5⟩],
    zoneinfo := utcZoneInfo, localtime := LocalTimeState.NoChangePending ⟨0⟩, schedule := [] }

/-- Three events registered at the same fixed moment with contexts 0, 1, 0
(the A, B, A scenario) over a resolved stable window. -/
def abaSchedule : Schedule Nat :=
  { events := [
      ⟨DailyEvent.Fixed Filter.Always (Moment.UtcTime (Duration.seconds 7200)), 0, 0⟩,
      ⟨DailyEvent.Fixed Filter.Always (Moment.UtcTime (Duration.seconds 7200)), 1, 1⟩,
      ⟨DailyEvent.Fixed Filter.Always (Moment.UtcTime (Duration.seconds 7200)), 2, 0⟩],
    zoneinfo := utcZoneInfo, localtime := LocalTimeState.NoChangePending ⟨0⟩, schedule := [] }

/-- The schedule produced by updating abaSchedule at the epoch reference
day: all three events land under the 02:00 key in registration order. -/
def abaUpdated : Schedule Nat :=
  { events := abaSchedule.events, zoneinfo := utcZoneInfo,
    localtime := LocalTimeState.NoChangePending ⟨0⟩,
    schedule := [(Timespec.new 7200 0, abaSchedule.events)] }

/-- The hint callbacks of that update, in registration order. -/
def abaHints : List (Timespec × Event Nat) :=
  [(Timespec.new 7200 0,
    ⟨DailyEvent.Fixed Filter.Always (Moment.UtcTime (Duration.seconds 7200)), 0, 0⟩),
   (Timespec.new 7200 0,
    ⟨DailyEvent.Fixed Filter.Always (Moment.UtcTime (Duration.seconds 7200)), 1, 1⟩),
   (Timespec.new 7200 0,
    ⟨DailyEvent.Fixed Filter.Always (Moment.UtcTime (Duration.seconds 7200)), 2, 0⟩)]

/-- A schedule with a populated two-key pending map, for exercising
kick_event concretely. -/
def kickSchedule : Schedule Nat :=
  { events := [], zoneinfo := utcZoneInfo, localtime := LocalTimeState.NoChangePending ⟨0⟩,
    schedule := [
      (Timespec.new 10 0, [
        ⟨DailyEvent.Fixed Filter.Always (Moment.UtcTime 0), 0, 1⟩,
        ⟨DailyEvent.Fixed Filter.Always (Moment.UtcTime 0), 0, 2⟩]),
      (Timespec.new 20 0, [
        ⟨DailyEvent.Fixed Filter.Always (Moment.UtcTime 0), 0, 3⟩])] }

/-- An event-free schedule with an unresolved zone state. -/
def freshSchedule : Schedule Nat := Schedule.new utcZoneInfo

/-- The event-free schedule after its first update: the zone window has
been resolved to the stable zero offset. -/
def freshUpdated : Schedule Nat :=
  { events := [], zoneinfo := utcZoneInfo,
    localtime := LocalTimeState.NoChangePending ⟨0⟩, schedule := [] }

/-- The fixed-event schedule after one update at the epoch reference. -/
def fixedUpdated1 : Schedule Nat :=
  { events := fixedSchedule.events, zoneinfo := utcZoneInfo,
    localtime := LocalTimeState.NoChangePending ⟨0⟩,
    schedule := [(Timespec.new 7200 0, fixedSchedule.events)] }

/-- The fixed-event schedule after a second update for the same
reference day: the pending vector under 02:00 now holds the event
twice. -/
def fixedUpdated2 : Schedule Nat :=
  { events := fixedSchedule.events, zoneinfo := utcZoneInfo,
    localtime := LocalTimeState.NoChangePending ⟨0⟩,
    schedule := [(Timespec.new 7200 0, fixedSchedule.events ++ fixedSchedule.events)] }

/-- The hint trace of one update of the fixed-event schedule. -/
def fixedHints : List (Timespec × Event Nat) :=
  [(Timespec.new 7200 0,
    ⟨DailyEvent.Fixed Filter.Always (Moment.UtcTime (Duration.seconds 7200)), 0, 5⟩)]

/-- The BTreeMap representation invariant: entries strictly ascending by
key. -/
def MapSorted {C : Type} (m : ScheduleMap C) : Prop :=
  List.Pairwise (fun p q => p.1 < q.1) m

instance decKeyLt {C : Type} :
    DecidableRel (fun (p q : Timespec × List (Event C)) => p.1 < q.1) :=
  fun p q => Timespec.decLt p.1 q.1

instance decMapSorted {C : Type} (m : ScheduleMap C) : Decidable (MapSorted m) :=
  inferInstanceAs (Decidable (List.Pairwise _ m))

-- ## Derived facts

/-- Splitting a total nanosecond count into a Timespec loses nothing. -/
theorem toNanos_ofNanos (n : Int) : (Timespec.ofNanos n).toNanos = n := by
  simp only [Timespec.ofNanos, Timespec.toNanos]
  exact Int.tdiv_add_tmod' n nsPerSec

/-- A Timespec rebuilt from a nonnegative total is normalized. -/
theorem ofNanos_normalized {n : Int} (h : 0 ≤ n) : (Timespec.ofNanos n).normalized := by
  have hP : (0:Int) < nsPerSec := by decide
  constructor
  · exact Int.tmod_nonneg nsPerSec h
  · simp only [Timespec.ofNanos]
    rw [Int.tmod_eq_emod h (Int.le_of_lt hP)]
    exact Int.emod_lt_of_pos n hP

/-- Adding a Duration adds on total nanoseconds. -/
theorem add_toNanos (t : Timespec) (d : Int) : (t.add d).toNanos = t.toNanos + d :=
  toNanos_ofNanos _

/-- On normalized values the lexicographic strict order is the order of
total nanosecond counts. -/
theorem lt_iff_toNanos {a b : Timespec} (ha : a.normalized) (hb : b.normalized) :
    a < b ↔ a.toNanos < b.toNanos := by
  obtain ⟨ha1, ha2⟩ := ha
  obtain ⟨hb1, hb2⟩ := hb
  simp only [nsPerSec] at ha2 hb2
  change (a.sec < b.sec ∨ (a.sec = b.sec ∧ a.nsec < b.nsec)) ↔ _
  simp only [Timespec.toNanos, nsPerSec]
  omega

/-- On normalized values the lexicographic order is the order of total
nanosecond counts. -/
theorem le_iff_toNanos {a b : Timespec} (ha : a.normalized) (hb : b.normalized) :
    a ≤ b ↔ a.toNanos ≤ b.toNanos := by
  obtain ⟨ha1, ha2⟩ := ha
  obtain ⟨hb1, hb2⟩ := hb
  simp only [nsPerSec] at ha2 hb2
  change (a.sec < b.sec ∨ (a.sec = b.sec ∧ a.nsec ≤ b.nsec)) ↔ _
  simp only [Timespec.toNanos, nsPerSec]
  omega

/-- The lexicographic order on Timespec is total. -/
theorem ts_le_total (a b : Timespec) : a ≤ b ∨ b ≤ a := by
  change (a.sec < b.sec ∨ (a.sec = b.sec ∧ a.nsec ≤ b.nsec)) ∨
    (b.sec < a.sec ∨ (b.sec = a.sec ∧ b.nsec ≤ a.nsec))
  omega

/-- The lexicographic order on Timespec is antisymmetric. -/
theorem ts_le_antisymm {a b : Timespec} (h1 : a ≤ b) (h2 : b ≤ a) : a = b := by
  cases a with
  | mk as an =>
    cases b with
    | mk bs bn =>
      change as < bs ∨ (as = bs ∧ an ≤ bn) at h1
      change bs < as ∨ (bs = as ∧ bn ≤ an) at h2
      simp only [Timespec.mk.injEq]
      omega

/-- Toward-zero and Euclidean division agree on nonnegative durations. -/
theorem num_seconds_eq_ediv {d : Int} (h : 0 ≤ d) :
    Duration.num_seconds d = d / nsPerSec := by
  simp only [Duration.num_seconds]
  exact Int.tdiv_eq_ediv h (by decide)

/-- Claim C1: resolving a Local moment with offset d against the reference
UTC midnight R gives R + d - offset under a Stable window; under a pending
transition the engine forms the provisional instant R + d - offset_before,
picks offset_before when that instant is strictly before the transition
instant and offset_after otherwise, and returns R + d - chosen_offset; a
Utc moment resolves to R + d whatever the window is.  Instants are
compared as total nanosecond counts. -/
theorem C1_moment_resolution (R : Timespec) (d : Int)
    (info before after : ZoneInfoElement) (trans : Timespec)
    (htrans : trans.normalized) (hRd : 0 ≤ R.toNanos + d) :
    (∀ w : LocalTimeState,
      ((Moment.UtcTime d).create_timestamp R w).map Timespec.toNanos = some (R.toNanos + d))
    ∧ ((Moment.LocalTime d).create_timestamp R (LocalTimeState.NoChangePending info)).map
        Timespec.toNanos = some (R.toNanos + d - info.ut_offset * nsPerSec)
    ∧ ((Moment.LocalTime d).create_timestamp R
        (LocalTimeState.ChangePending trans before after)).map Timespec.toNanos =
      some (R.toNanos + d -
        (if R.toNanos + d - before.ut_offset * nsPerSec < trans.toNanos then before.ut_offset
         else after.ut_offset) * nsPerSec) := by
  have hpn : (R.add d).normalized := ofNanos_normalized hRd
  have key : (R.add d).sec * 1000000000 + (R.add d).nsec =
      R.sec * 1000000000 + R.nsec + d := by
    have h := add_toNanos R d
    simp only [Timespec.toNanos, nsPerSec] at h
    exact h
  refine ⟨fun w => ?_, ?_, ?_⟩
  · simp only [Moment.create_timestamp, Option.map, Option.some.injEq, Timespec.toNanos,
      nsPerSec]
    omega
  · simp only [Moment.create_timestamp, Option.map, Option.some.injEq, Timespec.toNanos,
      Timespec.new, nsPerSec]
    omega
  · have hrn : (Timespec.new ((R.add d).sec - before.ut_offset) (R.add d).nsec).normalized :=
      ⟨hpn.1, hpn.2⟩
    have hiff := lt_iff_toNanos hrn htrans
    simp only [Moment.create_timestamp, Option.map]
    by_cases hcode : Timespec.new ((R.add d).sec - before.ut_offset) (R.add d).nsec < trans
    · have hnum : R.toNanos + d - before.ut_offset * nsPerSec < trans.toNanos := by
        have h := hiff.mp hcode
        simp only [Timespec.toNanos, Timespec.new, nsPerSec] at h ⊢
        omega
      rw [if_pos hcode, if_pos hnum]
      simp only [Option.some.injEq, Timespec.toNanos, Timespec.new, nsPerSec]
      omega
    · have hnum : ¬ (R.toNanos + d - before.ut_offset * nsPerSec < trans.toNanos) := by
        intro h
        apply hcode
        apply hiff.mpr
        simp only [Timespec.toNanos, Timespec.new, nsPerSec] at h ⊢
        omega
      rw [if_neg hcode, if_neg hnum]
      simp only [Option.some.injEq, Timespec.toNanos, Timespec.new, nsPerSec]
      omega

/-- Witness for C1 at concrete inputs. -/
theorem C1_moment_resolution_witness :
    ((Timespec.new 5400 0).normalized ∧
      (0:Int) ≤ (Timespec.new 0 0).toNanos + Duration.seconds 7200)
    ∧ ((∀ w : LocalTimeState,
        ((Moment.UtcTime (Duration.seconds 7200)).create_timestamp (Timespec.new 0 0) w).map
          Timespec.toNanos = some ((Timespec.new 0 0).toNanos + Duration.seconds 7200))
      ∧ ((Moment.LocalTime (Duration.seconds 7200)).create_timestamp (Timespec.new 0 0)
          (LocalTimeState.NoChangePending ⟨3600⟩)).map Timespec.toNanos =
        some ((Timespec.new 0 0).toNanos + Duration.seconds 7200 - (3600:Int) * nsPerSec)
      ∧ ((Moment.LocalTime (Duration.seconds 7200)).create_timestamp (Timespec.new 0 0)
          (LocalTimeState.ChangePending (Timespec.new 5400 0) ⟨3600⟩ ⟨7200⟩)).map
          Timespec.toNanos =
        some ((Timespec.new 0 0).toNanos + Duration.seconds 7200 -
          (if (Timespec.new 0 0).toNanos + Duration.seconds 7200 -
              (3600:Int) * nsPerSec < (Timespec.new 5400 0).toNanos then (3600:Int)
           else (7200:Int)) * nsPerSec)) :=
  ⟨⟨by decide, by decide⟩,
    C1_moment_resolution (Timespec.new 0 0) (Duration.seconds 7200) ⟨3600⟩ ⟨3600⟩ ⟨7200⟩
      (Timespec.new 5400 0) (by decide) (by decide)⟩

/-- Claim C9: resolving a Local moment while the zone state is Unknown
panics (the unreachable! arm); with any resolved zone state the resolution
always produces a value, so the panic arm cannot be reached. -/
theorem C9_local_unknown_panics (d : Int) (R : Timespec) :
    (Moment.LocalTime d).create_timestamp R LocalTimeState.Unknown = none
    ∧ ∀ lt : LocalTimeState, lt ≠ LocalTimeState.Unknown →
      ((Moment.LocalTime d).create_timestamp R lt).isSome = true := by
  refine ⟨rfl, fun lt hlt => ?_⟩
  cases lt with
  | Unknown => exact absurd rfl hlt
  | NoChangePending info => rfl
  | ChangePending trans before after => rfl

/-- Witness for C9 at concrete inputs. -/
theorem C9_local_unknown_panics_witness :
    (LocalTimeState.NoChangePending ⟨3600⟩ ≠ LocalTimeState.Unknown)
    ∧ ((Moment.LocalTime 0).create_timestamp (Timespec.new 0 0)
        (LocalTimeState.NoChangePending ⟨3600⟩)).isSome = true :=
  ⟨by decide,
    (C9_local_unknown_panics 0 (Timespec.new 0 0)).2 (LocalTimeState.NoChangePending ⟨3600⟩)
      (by decide)⟩

/-- Claim C10: a Fuzzy event whose two moments resolve to distinct
instants less than one second apart panics: the random draw is taken over
the span truncated to whole seconds, which is the empty range, and the
gen_range assertion fires.  No value in the promised interval is
returned. -/
theorem C10_subsecond_fuzzy_panics {C : Type} (f : Filter) (m1 m2 : Moment) (r : Int)
    (ref : Timespec) (lt : LocalTimeState) (a : Nat) (c : C) (t1 t2 : Timespec)
    (h1 : m1.create_timestamp ref lt = some t1) (h2 : m2.create_timestamp ref lt = some t2)
    (hn1 : t1.normalized) (hn2 : t2.normalized)
    (hne : t1.toNanos ≠ t2.toNanos)
    (hlo : t1.toNanos - t2.toNanos < nsPerSec) (hhi : t2.toNanos - t1.toNanos < nsPerSec) :
    (Event.mk (DailyEvent.Fuzzy f m1 m2) a c).create_timestamp r ref lt = none := by
  simp only [Event.create_timestamp, Event.candidate, h1, h2]
  simp only [nsPerSec] at hlo hhi
  by_cases hge : t1 ≥ t2
  · have hle : t2.toNanos ≤ t1.toNanos := (le_iff_toNanos hn2 hn1).mp hge
    rw [if_pos hge, if_pos hge]
    have hd : Timespec.sub t1 t2 > Duration.seconds 0 := by
      show Duration.seconds 0 < Timespec.sub t1 t2
      simp only [Timespec.sub, Duration.seconds, nsPerSec]
      omega
    rw [if_pos hd]
    have hnn : (0:Int) ≤ Timespec.sub t1 t2 := by
      simp only [Timespec.sub]
      omega
    have h0 : Duration.num_seconds (Timespec.sub t1 t2) = 0 := by
      rw [num_seconds_eq_ediv hnn]
      simp only [Timespec.sub, nsPerSec]
      refine Int.ediv_eq_zero_of_lt ?_ ?_ <;> omega
    rw [h0]
    simp [gen_range]
  · have hle : t1 ≤ t2 := (ts_le_total t1 t2).resolve_right (fun h => hge h)
    have hlt : t1.toNanos ≤ t2.toNanos := (le_iff_toNanos hn1 hn2).mp hle
    rw [if_neg hge, if_neg hge]
    have hd : Timespec.sub t2 t1 > Duration.seconds 0 := by
      show Duration.seconds 0 < Timespec.sub t2 t1
      simp only [Timespec.sub, Duration.seconds, nsPerSec]
      omega
    rw [if_pos hd]
    have hnn : (0:Int) ≤ Timespec.sub t2 t1 := by
      simp only [Timespec.sub]
      omega
    have h0 : Duration.num_seconds (Timespec.sub t2 t1) = 0 := by
      rw [num_seconds_eq_ediv hnn]
      simp only [Timespec.sub, nsPerSec]
      refine Int.ediv_eq_zero_of_lt ?_ ?_ <;> omega
    rw [h0]
    simp [gen_range]

/-- Witness for C10 at concrete inputs: two UTC moments half a second
apart. -/
theorem C10_subsecond_fuzzy_panics_witness :
    ((Moment.UtcTime 0).create_timestamp (Timespec.new 0 0)
        (LocalTimeState.NoChangePending ⟨0⟩) = some (Timespec.new 0 0)
      ∧ (Moment.UtcTime 500000000).create_timestamp (Timespec.new 0 0)
        (LocalTimeState.NoChangePending ⟨0⟩) = some (Timespec.new 0 500000000)
      ∧ (Timespec.new 0 0).normalized ∧ (Timespec.new 0 500000000).normalized
      ∧ (Timespec.new 0 0).toNanos ≠ (Timespec.new 0 500000000).toNanos
      ∧ (Timespec.new 0 0).toNanos - (Timespec.new 0 500000000).toNanos < nsPerSec
      ∧ (Timespec.new 0 500000000).toNanos - (Timespec.new 0 0).toNanos < nsPerSec)
    ∧ (Event.mk (DailyEvent.Fuzzy Filter.Always (Moment.UtcTime 0)
        (Moment.UtcTime 500000000)) 0 (0:Nat)).create_timestamp 0 (Timespec.new 0 0)
        (LocalTimeState.NoChangePending ⟨0⟩) = none :=
  ⟨⟨by decide, by decide, by decide, by decide, by decide, by decide, by decide⟩,
    C10_subsecond_fuzzy_panics Filter.Always (Moment.UtcTime 0) (Moment.UtcTime 500000000)
      0 (Timespec.new 0 0) (LocalTimeState.NoChangePending ⟨0⟩) 0 (0:Nat)
      (Timespec.new 0 0) (Timespec.new 0 500000000)
      (by decide) (by decide) (by decide) (by decide) (by decide) (by decide) (by decide)⟩

/-- Counterexample to claim C4 as stated: a Fuzzy event whose two moments
resolve half a second apart yields no instant at all for any seed (the
draw is over an empty whole-second range and the computation panics), so
the promised value in the half-open interval is not returned. -/
theorem C4_fuzzy_counterexample :
    (Event.mk (DailyEvent.Fuzzy Filter.Always (Moment.UtcTime 0) (Moment.UtcTime 500000000))
        0 (0:Nat)).candidate 0 (Timespec.new 0 0) (LocalTimeState.NoChangePending ⟨0⟩) =
      none := by
  decide

/-- Claim C4 (amended): for a Fuzzy event resolving its two moments to t1
and t2, writing start and finish for the smaller and larger total
nanosecond count: a zero span returns start exactly; a span of at least
one second returns, for every raw draw, an instant in the half-open
interval from start inclusive to finish exclusive; and swapping the two
moments never changes the outcome.  Positive spans under one second are
excluded: they panic, see the C4 counterexample and claim C10. -/
theorem C4_fuzzy_range {C : Type} (f : Filter) (m1 m2 : Moment) (r : Int)
    (ref : Timespec) (lt : LocalTimeState) (a : Nat) (c : C) (t1 t2 : Timespec)
    (h1 : m1.create_timestamp ref lt = some t1) (h2 : m2.create_timestamp ref lt = some t2)
    (hn1 : t1.normalized) (hn2 : t2.normalized) :
    (min t1.toNanos t2.toNanos = max t1.toNanos t2.toNanos →
      ((Event.mk (DailyEvent.Fuzzy f m1 m2) a c).candidate r ref lt).map Timespec.toNanos =
        some (min t1.toNanos t2.toNanos))
    ∧ (min t1.toNanos t2.toNanos + nsPerSec ≤ max t1.toNanos t2.toNanos →
      ∃ u : Timespec,
        (Event.mk (DailyEvent.Fuzzy f m1 m2) a c).candidate r ref lt = some u ∧
          min t1.toNanos t2.toNanos ≤ u.toNanos ∧ u.toNanos < max t1.toNanos t2.toNanos)
    ∧ (Event.mk (DailyEvent.Fuzzy f m1 m2) a c).candidate r ref lt =
      (Event.mk (DailyEvent.Fuzzy f m2 m1) a c).candidate r ref lt := by
  refine ⟨?_, ?_, ?_⟩
  · intro heq
    simp only [Event.candidate, h1, h2]
    by_cases hge : t1 ≥ t2
    · rw [if_pos hge, if_pos hge]
      have hz : ¬ (Timespec.sub t1 t2 > Duration.seconds 0) := by
        show ¬ (Duration.seconds 0 < Timespec.sub t1 t2)
        simp only [Timespec.sub, Duration.seconds, nsPerSec]
        omega
      rw [if_neg hz]
      simp only [Option.map, Option.some.injEq]
      omega
    · rw [if_neg hge, if_neg hge]
      have hz : ¬ (Timespec.sub t2 t1 > Duration.seconds 0) := by
        show ¬ (Duration.seconds 0 < Timespec.sub t2 t1)
        simp only [Timespec.sub, Duration.seconds, nsPerSec]
        omega
      rw [if_neg hz]
      simp only [Option.map, Option.some.injEq]
      omega
  · intro hsp
    simp only [nsPerSec] at hsp
    simp only [Event.candidate, h1, h2]
    by_cases hge : t1 ≥ t2
    · have hle : t2.toNanos ≤ t1.toNanos := (le_iff_toNanos hn2 hn1).mp hge
      rw [if_pos hge, if_pos hge]
      have hd : Timespec.sub t1 t2 > Duration.seconds 0 := by
        show Duration.seconds 0 < Timespec.sub t1 t2
        simp only [Timespec.sub, Duration.seconds, nsPerSec]
        omega
      rw [if_pos hd]
      have hnn : (0:Int) ≤ Timespec.sub t1 t2 := by
        simp only [Timespec.sub]
        omega
      have hnum : Duration.num_seconds (Timespec.sub t1 t2) =
          (t1.toNanos - t2.toNanos) / 1000000000 := by
        rw [num_seconds_eq_ediv hnn]
        simp only [Timespec.sub, nsPerSec]
      have hpos : 0 < (t1.toNanos - t2.toNanos) / 1000000000 := by omega
      have hgr : gen_range r 0 ((t1.toNanos - t2.toNanos) / 1000000000) =
          some (0 + r % ((t1.toNanos - t2.toNanos) / 1000000000)) := by
        simp only [gen_range, sub_zero, if_pos hpos]
      rw [hnum, hgr]
      refine ⟨_, rfl, ?_, ?_⟩
      · rw [add_toNanos]
        have he1 : 0 ≤ r % ((t1.toNanos - t2.toNanos) / 1000000000) :=
          Int.emod_nonneg r (by omega)
        simp only [Duration.seconds, nsPerSec]
        omega
      · rw [add_toNanos]
        have he1 : 0 ≤ r % ((t1.toNanos - t2.toNanos) / 1000000000) :=
          Int.emod_nonneg r (by omega)
        have he2 : r % ((t1.toNanos - t2.toNanos) / 1000000000) <
            (t1.toNanos - t2.toNanos) / 1000000000 :=
          Int.emod_lt_of_pos r hpos
        have he3 : (t1.toNanos - t2.toNanos) / 1000000000 * 1000000000 ≤
            t1.toNanos - t2.toNanos :=
          Int.ediv_mul_le (t1.toNanos - t2.toNanos) (by omega)
        simp only [Duration.seconds, nsPerSec]
        omega
    · have hle2 : t1 ≤ t2 := (ts_le_total t1 t2).resolve_right (fun h => hge h)
      have hle : t1.toNanos ≤ t2.toNanos := (le_iff_toNanos hn1 hn2).mp hle2
      rw [if_neg hge, if_neg hge]
      have hd : Timespec.sub t2 t1 > Duration.seconds 0 := by
        show Duration.seconds 0 < Timespec.sub t2 t1
        simp only [Timespec.sub, Duration.seconds, nsPerSec]
        omega
      rw [if_pos hd]
      have hnn : (0:Int) ≤ Timespec.sub t2 t1 := by
        simp only [Timespec.sub]
        omega
      have hnum : Duration.num_seconds (Timespec.sub t2 t1) =
          (t2.toNanos - t1.toNanos) / 1000000000 := by
        rw [num_seconds_eq_ediv hnn]
        simp only [Timespec.sub, nsPerSec]
      have hpos : 0 < (t2.toNanos - t1.toNanos) / 1000000000 := by omega
      have hgr : gen_range r 0 ((t2.toNanos - t1.toNanos) / 1000000000) =
          some (0 + r % ((t2.toNanos - t1.toNanos) / 1000000000)) := by
        simp only [gen_range, sub_zero, if_pos hpos]
      rw [hnum, hgr]
      refine ⟨_, rfl, ?_, ?_⟩
      · rw [add_toNanos]
        have he1 : 0 ≤ r % ((t2.toNanos - t1.toNanos) / 1000000000) :=
          Int.emod_nonneg r (by omega)
        simp only [Duration.seconds, nsPerSec]
        omega
      · rw [add_toNanos]
        have he1 : 0 ≤ r % ((t2.toNanos - t1.toNanos) / 1000000000) :=
          Int.emod_nonneg r (by omega)
        have he2 : r % ((t2.toNanos - t1.toNanos) / 1000000000) <
            (t2.toNanos - t1.toNanos) / 1000000000 :=
          Int.emod_lt_of_pos r hpos
        have he3 : (t2.toNanos - t1.toNanos) / 1000000000 * 1000000000 ≤
            t2.toNanos - t1.toNanos :=
          Int.ediv_mul_le (t2.toNanos - t1.toNanos) (by omega)
        simp only [Duration.seconds, nsPerSec]
        omega
  · simp only [Event.candidate, h1, h2]
    by_cases hge : t1 ≥ t2
    · by_cases hge2 : t2 ≥ t1
      · have heq : t1 = t2 := ts_le_antisymm hge2 hge
        subst heq
        rfl
      · rw [if_pos hge, if_pos hge, if_neg hge2, if_neg hge2]
    · have hge2 : t2 ≥ t1 := (ts_le_total t1 t2).resolve_right (fun h => hge h)
      rw [if_neg hge, if_neg hge, if_pos hge2, if_pos hge2]

/-- Witness for the amended C4 at concrete inputs: two UTC moments one
hour apart. -/
theorem C4_fuzzy_range_witness :
    ((Moment.UtcTime 0).create_timestamp (Timespec.new 0 0)
        (LocalTimeState.NoChangePending ⟨0⟩) = some (Timespec.new 0 0)
      ∧ (Moment.UtcTime (Duration.seconds 3600)).create_timestamp (Timespec.new 0 0)
        (LocalTimeState.NoChangePending ⟨0⟩) = some (Timespec.new 3600 0)
      ∧ (Timespec.new 0 0).normalized ∧ (Timespec.new 3600 0).normalized)
    ∧ ((min (Timespec.new 0 0).toNanos (Timespec.new 3600 0).toNanos =
          max (Timespec.new 0 0).toNanos (Timespec.new 3600 0).toNanos →
        ((Event.mk (DailyEvent.Fuzzy Filter.Always (Moment.UtcTime 0)
            (Moment.UtcTime (Duration.seconds 3600))) 0 (0:Nat)).candidate 7
            (Timespec.new 0 0) (LocalTimeState.NoChangePending ⟨0⟩)).map Timespec.toNanos =
          some (min (Timespec.new 0 0).toNanos (Timespec.new 3600 0).toNanos))
      ∧ (min (Timespec.new 0 0).toNanos (Timespec.new 3600 0).toNanos + nsPerSec ≤
          max (Timespec.new 0 0).toNanos (Timespec.new 3600 0).toNanos →
        ∃ u : Timespec,
          (Event.mk (DailyEvent.Fuzzy Filter.Always (Moment.UtcTime 0)
              (Moment.UtcTime (Duration.seconds 3600))) 0 (0:Nat)).candidate 7
              (Timespec.new 0 0) (LocalTimeState.NoChangePending ⟨0⟩) = some u ∧
            min (Timespec.new 0 0).toNanos (Timespec.new 3600 0).toNanos ≤ u.toNanos ∧
            u.toNanos < max (Timespec.new 0 0).toNanos (Timespec.new 3600 0).toNanos)
      ∧ (Event.mk (DailyEvent.Fuzzy Filter.Always (Moment.UtcTime 0)
          (Moment.UtcTime (Duration.seconds 3600))) 0 (0:Nat)).candidate 7
          (Timespec.new 0 0) (LocalTimeState.NoChangePending ⟨0⟩) =
        (Event.mk (DailyEvent.Fuzzy Filter.Always (Moment.UtcTime (Duration.seconds 3600))
          (Moment.UtcTime 0)) 0 (0:Nat)).candidate 7
          (Timespec.new 0 0) (LocalTimeState.NoChangePending ⟨0⟩)) :=
  ⟨⟨by decide, by decide, by decide, by decide⟩,
    C4_fuzzy_range Filter.Always (Moment.UtcTime 0) (Moment.UtcTime (Duration.seconds 3600))
      7 (Timespec.new 0 0) (LocalTimeState.NoChangePending ⟨0⟩) 0 (0:Nat)
      (Timespec.new 0 0) (Timespec.new 3600 0)
      (by decide) (by decide) (by decide) (by decide)⟩

/-- Counterexample to claim C5 as stated: with a two-second jitter and a
raw draw of zero, the candidate lands one full second after the base,
exactly at base + jitter/2, which the claim excludes; and with jitter of
minus five seconds the candidate is base minus two seconds, not the base
itself although the claim promises the base exactly for every
nonpositive jitter. -/
theorem C5_byclosure_counterexample :
    (Event.mk (DailyEvent.ByClosure Filter.Always
        (fun _ => Moment.UtcTime (Duration.seconds 7200)) (Duration.seconds 2)) 0
        (0:Nat)).candidate 0 (Timespec.new 0 0) (LocalTimeState.NoChangePending ⟨0⟩) =
      some (Timespec.new 7201 0)
    ∧ ¬ ((Timespec.new 7201 0).toNanos - (Timespec.new 7200 0).toNanos <
        Duration.seconds 2 / 2)
    ∧ (Event.mk (DailyEvent.ByClosure Filter.Always
        (fun _ => Moment.UtcTime (Duration.seconds 7200)) (Duration.seconds (-5))) 0
        (0:Nat)).candidate 0 (Timespec.new 0 0) (LocalTimeState.NoChangePending ⟨0⟩) =
      some (Timespec.new 7198 0)
    ∧ Timespec.new 7198 0 ≠ Timespec.new 7200 0 := by
  refine ⟨by decide, by decide, by decide, by decide⟩

/-- Claim C5 (amended): for a ByClosure event with jitter of at least
one second, whole or fractional, the candidate equals base + delta
where, for every raw draw, twice delta lies in the half-open window from
minus jitter exclusive to plus jitter inclusive: the window is centred
on the base, open at the bottom and closed at the top, and the top value
delta = +jitter/2 is attained at a zero draw whenever the jitter is an
even whole number of seconds.  For every nonpositive jitter the result
is the base shifted by num_seconds(jitter)/2 seconds, truncated toward
zero: the shift is zero exactly when the jitter lies in the interval
from minus two seconds exclusive to zero inclusive, where the result
equals the base, and strictly negative once the jitter is at most minus
two seconds.  Positive sub-second jitter panics. -/
theorem C5_byclosure_jitter {C : Type} (f : Filter) (g : Timespec → Moment)
    (ref : Timespec) (lt : LocalTimeState) (a : Nat) (c : C) (base : Timespec)
    (hb : (g ref).create_timestamp ref lt = some base) :
    (∀ v r : Int, nsPerSec ≤ v →
      ∃ delta : Int,
        ((Event.mk (DailyEvent.ByClosure f g v) a c).candidate r ref lt).map
            Timespec.toNanos = some (base.toNanos + delta) ∧
          -v < 2 * delta ∧ 2 * delta ≤ v)
    ∧ (∀ n : Int, 2 ≤ n → n % 2 = 0 →
      ∃ delta : Int,
        ((Event.mk (DailyEvent.ByClosure f g (Duration.seconds n)) a c).candidate 0
            ref lt).map Timespec.toNanos = some (base.toNanos + delta) ∧
          2 * delta = Duration.seconds n)
    ∧ (∀ v r : Int, v ≤ 0 →
      ((Event.mk (DailyEvent.ByClosure f g v) a c).candidate r ref lt).map
          Timespec.toNanos =
        some (base.toNanos + Int.tdiv (Duration.num_seconds v) 2 * nsPerSec))
    ∧ (∀ v : Int, v ≤ -(2 * nsPerSec) → Int.tdiv (Duration.num_seconds v) 2 < 0)
    ∧ (∀ v : Int, -(2 * nsPerSec) < v → v ≤ 0 → Int.tdiv (Duration.num_seconds v) 2 = 0)
    ∧ (∀ v r : Int, 0 < v → v < nsPerSec →
      (Event.mk (DailyEvent.ByClosure f g v) a c).candidate r ref lt = none) := by
  refine ⟨?_, ?_, ?_, ?_, ?_, ?_⟩
  · intro v r hv
    simp only [nsPerSec] at hv
    have hvpos : v > Duration.seconds 0 := by
      show Duration.seconds 0 < v
      simp only [Duration.seconds, nsPerSec]
      omega
    have hnn : (0:Int) ≤ v := by omega
    have hnum : Duration.num_seconds v = v / 1000000000 := by
      rw [num_seconds_eq_ediv hnn]
      simp only [nsPerSec]
    have hpos : 0 < v / 1000000000 := by omega
    have hgen : gen_range r 0 (v / 1000000000) = some (r % (v / 1000000000)) := by
      simp only [gen_range, sub_zero, zero_add, if_pos hpos]
    have hstep : (Event.mk (DailyEvent.ByClosure f g v) a c).candidate r ref lt =
        some (base.add (Duration.seconds
          (Int.tdiv (v / 1000000000) 2 - r % (v / 1000000000)))) := by
      simp only [Event.candidate, hnum, if_pos hvpos, hgen, hb]
    refine ⟨Duration.seconds (Int.tdiv (v / 1000000000) 2 - r % (v / 1000000000)),
      ?_, ?_, ?_⟩
    · rw [hstep]
      simp only [Option.map, add_toNanos]
    · have htd : Int.tdiv (v / 1000000000) 2 = v / 1000000000 / 2 :=
        Int.tdiv_eq_ediv (by omega) (by decide)
      have he1 : 0 ≤ r % (v / 1000000000) := Int.emod_nonneg r (by omega)
      have he2 : r % (v / 1000000000) < v / 1000000000 := Int.emod_lt_of_pos r hpos
      rw [htd]
      simp only [Duration.seconds, nsPerSec]
      omega
    · have htd : Int.tdiv (v / 1000000000) 2 = v / 1000000000 / 2 :=
        Int.tdiv_eq_ediv (by omega) (by decide)
      have he1 : 0 ≤ r % (v / 1000000000) := Int.emod_nonneg r (by omega)
      have he2 : r % (v / 1000000000) < v / 1000000000 := Int.emod_lt_of_pos r hpos
      rw [htd]
      simp only [Duration.seconds, nsPerSec]
      omega
  · intro n hn2 hneven
    have hvpos : Duration.seconds n > Duration.seconds 0 := by
      show Duration.seconds 0 < Duration.seconds n
      simp only [Duration.seconds, nsPerSec]
      omega
    have hnum : Duration.num_seconds (Duration.seconds n) = n := by
      simp only [Duration.seconds, Duration.num_seconds]
      exact Int.mul_tdiv_cancel n (by decide)
    have hgen : gen_range 0 0 n = some 0 := by
      simp only [gen_range, sub_zero, zero_add,
        if_pos (show (0:Int) < n by omega), Int.zero_emod]
    have hstep : (Event.mk (DailyEvent.ByClosure f g (Duration.seconds n)) a c).candidate
        0 ref lt = some (base.add (Duration.seconds (Int.tdiv n 2 - 0))) := by
      simp only [Event.candidate, hnum, if_pos hvpos, hgen, hb]
    refine ⟨Duration.seconds (Int.tdiv n 2), ?_, ?_⟩
    · rw [hstep]
      simp only [Option.map, add_toNanos, sub_zero]
    · have htd : Int.tdiv n 2 = n / 2 := Int.tdiv_eq_ediv (by omega) (by decide)
      rw [htd]
      simp only [Duration.seconds, nsPerSec]
      omega
  · intro v r hv0
    have hvneg : ¬ (v > Duration.seconds 0) := by
      show ¬ (Duration.seconds 0 < v)
      simp only [Duration.seconds, nsPerSec]
      omega
    have hstep : (Event.mk (DailyEvent.ByClosure f g v) a c).candidate r ref lt =
        some (base.add (Duration.seconds (Int.tdiv (Duration.num_seconds v) 2 - 0))) := by
      simp only [Event.candidate, if_neg hvneg, hb]
    rw [hstep]
    simp only [Option.map, add_toNanos, sub_zero, Option.some.injEq, Duration.seconds,
      nsPerSec]
  · intro v hv
    simp only [nsPerSec] at hv
    have hw : Duration.num_seconds v = -((-v) / 1000000000) := by
      have h := Int.neg_tdiv (-v) 1000000000
      rw [neg_neg] at h
      have h2 : Int.tdiv (-v) 1000000000 = (-v) / 1000000000 :=
        Int.tdiv_eq_ediv (by omega) (by decide)
      simp only [Duration.num_seconds, nsPerSec]
      omega
    have h3 := Int.neg_tdiv (-(Duration.num_seconds v)) 2
    rw [neg_neg] at h3
    have h4 : Int.tdiv (-(Duration.num_seconds v)) 2 = (-(Duration.num_seconds v)) / 2 :=
      Int.tdiv_eq_ediv (by omega) (by decide)
    omega
  · intro v hv1 hv2
    simp only [nsPerSec] at hv1
    have hw : Duration.num_seconds v = -((-v) / 1000000000) := by
      have h := Int.neg_tdiv (-v) 1000000000
      rw [neg_neg] at h
      have h2 : Int.tdiv (-v) 1000000000 = (-v) / 1000000000 :=
        Int.tdiv_eq_ediv (by omega) (by decide)
      simp only [Duration.num_seconds, nsPerSec]
      omega
    have hcases : Duration.num_seconds v = 0 ∨ Duration.num_seconds v = -1 := by omega
    rcases hcases with h | h
    · rw [h]
      decide
    · rw [h]
      decide
  · intro v r hv1 hv2
    simp only [nsPerSec] at hv2
    have hvpos : v > Duration.seconds 0 := by
      show Duration.seconds 0 < v
      simp only [Duration.seconds, nsPerSec]
      omega
    have hnn : (0:Int) ≤ v := by omega
    have hnum0 : Duration.num_seconds v = 0 := by
      rw [num_seconds_eq_ediv hnn]
      simp only [nsPerSec]
      refine Int.ediv_eq_zero_of_lt ?_ ?_ <;> omega
    have hgen : gen_range r 0 (0:Int) = none := by simp [gen_range]
    simp only [Event.candidate, hnum0, if_pos hvpos, hgen]

/-- Witness for the amended C5 at concrete inputs: a closure returning a
fixed UTC moment resolving to 02:00, exercising the window, attainment,
nonpositive-shift and panic clauses. -/
theorem C5_byclosure_jitter_witness :
    ((fun (_ : Timespec) => Moment.UtcTime (Duration.seconds 7200)) (Timespec.new 0 0)
        |>.create_timestamp (Timespec.new 0 0) (LocalTimeState.NoChangePending ⟨0⟩)) =
      some (Timespec.new 7200 0)
    ∧ ((∀ v r : Int, nsPerSec ≤ v →
        ∃ delta : Int,
          ((Event.mk (DailyEvent.ByClosure Filter.Always
              (fun (_ : Timespec) => Moment.UtcTime (Duration.seconds 7200)) v) 0
              (0:Nat)).candidate r (Timespec.new 0 0)
              (LocalTimeState.NoChangePending ⟨0⟩)).map Timespec.toNanos =
            some ((Timespec.new 7200 0).toNanos + delta) ∧
            -v < 2 * delta ∧ 2 * delta ≤ v)
      ∧ (∀ n : Int, 2 ≤ n → n % 2 = 0 →
        ∃ delta : Int,
          ((Event.mk (DailyEvent.ByClosure Filter.Always
              (fun (_ : Timespec) => Moment.UtcTime (Duration.seconds 7200))
              (Duration.seconds n)) 0 (0:Nat)).candidate 0 (Timespec.new 0 0)
              (LocalTimeState.NoChangePending ⟨0⟩)).map Timespec.toNanos =
            some ((Timespec.new 7200 0).toNanos + delta) ∧
            2 * delta = Duration.seconds n)
      ∧ (∀ v r : Int, v ≤ 0 →
        ((Event.mk (DailyEvent.ByClosure Filter.Always
            (fun (_ : Timespec) => Moment.UtcTime (Duration.seconds 7200)) v) 0
            (0:Nat)).candidate r (Timespec.new 0 0)
            (LocalTimeState.NoChangePending ⟨0⟩)).map Timespec.toNanos =
          some ((Timespec.new 7200 0).toNanos +
            Int.tdiv (Duration.num_seconds v) 2 * nsPerSec))
      ∧ (∀ v : Int, v ≤ -(2 * nsPerSec) → Int.tdiv (Duration.num_seconds v) 2 < 0)
      ∧ (∀ v : Int, -(2 * nsPerSec) < v → v ≤ 0 →
        Int.tdiv (Duration.num_seconds v) 2 = 0)
      ∧ (∀ v r : Int, 0 < v → v < nsPerSec →
        (Event.mk (DailyEvent.ByClosure Filter.Always
            (fun (_ : Timespec) => Moment.UtcTime (Duration.seconds 7200)) v) 0
            (0:Nat)).candidate r (Timespec.new 0 0)
            (LocalTimeState.NoChangePending ⟨0⟩) = none)) :=
  ⟨by decide,
    C5_byclosure_jitter Filter.Always
      (fun (_ : Timespec) => Moment.UtcTime (Duration.seconds 7200))
      (Timespec.new 0 0) (LocalTimeState.NoChangePending ⟨0⟩) 0 (0:Nat)
      (Timespec.new 7200 0) (by decide)⟩

/-- Congruence for flatMap over the members of a list. -/
theorem flatMapCongr {α β : Type} {l : List α} {f g : α → List β}
    (h : ∀ x ∈ l, f x = g x) : l.flatMap f = l.flatMap g := by
  induction l with
  | nil => rfl
  | cons x xs ih =>
    simp only [List.flatMap_cons]
    rw [h x (List.mem_cons_self x xs), ih (fun y hy => h y (List.mem_cons_of_mem x hy))]

/-- The lexicographic order on Timespec is reflexive. -/
theorem ts_le_refl (a : Timespec) : a ≤ a := by
  change a.sec < a.sec ∨ (a.sec = a.sec ∧ a.nsec ≤ a.nsec)
  omega

/-- Strict implies nonstrict for the Timespec order. -/
theorem ts_lt_le {a b : Timespec} (h : a < b) : a ≤ b := by
  change a.sec < b.sec ∨ (a.sec = b.sec ∧ a.nsec < b.nsec) at h
  change a.sec < b.sec ∨ (a.sec = b.sec ∧ a.nsec ≤ b.nsec)
  omega

/-- The strict Timespec order is transitive. -/
theorem ts_lt_trans {a b c : Timespec} (h1 : a < b) (h2 : b < c) : a < c := by
  change a.sec < b.sec ∨ (a.sec = b.sec ∧ a.nsec < b.nsec) at h1
  change b.sec < c.sec ∨ (b.sec = c.sec ∧ b.nsec < c.nsec) at h2
  change a.sec < c.sec ∨ (a.sec = c.sec ∧ a.nsec < c.nsec)
  omega

/-- The strict Timespec order is irreflexive. -/
theorem ts_lt_irrefl (a : Timespec) : ¬ (a < a) := by
  change ¬ (a.sec < a.sec ∨ (a.sec = a.sec ∧ a.nsec < a.nsec))
  omega

/-- Trichotomy consequence: distinct, not smaller, hence larger. -/
theorem ts_gt_of_ne_of_not_lt {a b : Timespec} (h1 : ¬ (a = b)) (h2 : ¬ (a < b)) : b < a := by
  cases a with
  | mk as an =>
    cases b with
    | mk bs bn =>
      simp only [Timespec.mk.injEq, not_and] at h1
      change ¬ (as < bs ∨ (as = bs ∧ an < bn)) at h2
      change bs < as ∨ (bs = as ∧ bn < an)
      by_cases hs : as = bs
      · subst hs
        refine Or.inr ⟨rfl, ?_⟩
        have := h1 rfl
        omega
      · omega

/-- A key absent from a map looks up to the empty list. -/
theorem lookupList_not_mem {C : Type} {m : ScheduleMap C} {t : Timespec}
    (h : t ∉ m.map Prod.fst) : m.lookupList t = [] := by
  induction m with
  | nil => rfl
  | cons p rest ih =>
    obtain ⟨k, es⟩ := p
    simp only [List.map_cons, List.mem_cons, not_or] at h
    simp only [ScheduleMap.lookupList]
    rw [if_neg (fun he => h.1 he.symm)]
    exact ih h.2

/-- BTreeMap::get agrees with the total lookup. -/
theorem getVal_entries {C : Type} (m : ScheduleMap C) (t : Timespec) :
    (match m.getVal t with
      | some es => es.map (fun e => (t, e))
      | none => ([] : List (Timespec × Event C))) =
      (m.lookupList t).map (fun e => (t, e)) := by
  induction m with
  | nil => rfl
  | cons p rest ih =>
    obtain ⟨k, es⟩ := p
    simp only [ScheduleMap.getVal, ScheduleMap.lookupList]
    by_cases hk : k = t
    · rw [if_pos hk, if_pos hk]
    · rw [if_neg hk, if_neg hk]
      exact ih

/-- Inserting under one key leaves every other key unchanged. -/
theorem insertEvent_lookup_ne {C : Type} (m : ScheduleMap C) (t : Timespec) (e : Event C)
    {t2 : Timespec} (h : t2 ≠ t) :
    (m.insertEvent t e).lookupList t2 = m.lookupList t2 := by
  induction m with
  | nil =>
    simp only [ScheduleMap.insertEvent, ScheduleMap.lookupList]
    rw [if_neg (fun hh => h hh.symm)]
  | cons p rest ih =>
    obtain ⟨k, es⟩ := p
    simp only [ScheduleMap.insertEvent]
    by_cases h1 : t = k
    · rw [if_pos h1]
      simp only [ScheduleMap.lookupList]
      by_cases h2 : k = t2
      · exact absurd (h1.trans h2).symm h
      · rw [if_neg h2, if_neg h2]
    · rw [if_neg h1]
      by_cases h3 : t < k
      · rw [if_pos h3]
        simp only [ScheduleMap.lookupList]
        rw [if_neg (fun hh => h hh.symm)]
      · rw [if_neg h3]
        simp only [ScheduleMap.lookupList]
        by_cases h2 : k = t2
        · rw [if_pos h2, if_pos h2]
        · rw [if_neg h2, if_neg h2]
          exact ih


/-- Inserting appends to the vector already stored under the key. -/
theorem insertEvent_lookup_eq {C : Type} {m : ScheduleMap C} (hm : MapSorted m)
    (t : Timespec) (e : Event C) :
    (m.insertEvent t e).lookupList t = m.lookupList t ++ [e] := by
  induction m with
  | nil =>
    simp [ScheduleMap.insertEvent, ScheduleMap.lookupList]
  | cons p rest ih =>
    obtain ⟨k, es⟩ := p
    have hhead := (List.pairwise_cons.mp hm).1
    have hrest : MapSorted rest := (List.pairwise_cons.mp hm).2
    simp only [ScheduleMap.insertEvent]
    by_cases h1 : t = k
    · rw [if_pos h1]
      simp only [ScheduleMap.lookupList]
      rw [if_pos h1.symm, if_pos h1.symm]
    · rw [if_neg h1]
      by_cases h3 : t < k
      · rw [if_pos h3]
        simp only [ScheduleMap.lookupList, if_true]
        rw [if_neg (fun hh => h1 hh.symm)]
        have hnot : t ∉ rest.map Prod.fst := by
          intro hmem
          obtain ⟨q, hq, hq2⟩ := List.mem_map.mp hmem
          have : t < t := by
            have := ts_lt_trans h3 (hhead q hq)
            rw [hq2] at this
            exact this
          exact ts_lt_irrefl t this
        rw [lookupList_not_mem hnot]
        rfl
      · rw [if_neg h3]
        simp only [ScheduleMap.lookupList]
        rw [if_neg (fun hh => h1 hh.symm), if_neg (fun hh => h1 hh.symm)]
        exact ih hrest

/-- Every entry of the inserted map either bears the new key or was
already present. -/
theorem insertEvent_mem_fst {C : Type} {m : ScheduleMap C} {t : Timespec} {e : Event C}
    {q : Timespec × List (Event C)} (h : q ∈ m.insertEvent t e) : q.1 = t ∨ q ∈ m := by
  induction m with
  | nil =>
    simp only [ScheduleMap.insertEvent, List.mem_singleton] at h
    rw [h]
    exact Or.inl rfl
  | cons p rest ih =>
    obtain ⟨k, es⟩ := p
    simp only [ScheduleMap.insertEvent] at h
    by_cases h1 : t = k
    · rw [if_pos h1] at h
      rcases List.mem_cons.mp h with h2 | h2
      · rw [h2]
        exact Or.inl h1.symm
      · exact Or.inr (List.mem_cons_of_mem _ h2)
    · rw [if_neg h1] at h
      by_cases h3 : t < k
      · rw [if_pos h3] at h
        rcases List.mem_cons.mp h with h2 | h2
        · rw [h2]
          exact Or.inl rfl
        · exact Or.inr h2
      · rw [if_neg h3] at h
        rcases List.mem_cons.mp h with h2 | h2
        · refine Or.inr ?_
          rw [h2]
          exact List.mem_cons_self _ _
        · rcases ih h2 with h4 | h4
          · exact Or.inl h4
          · exact Or.inr (List.mem_cons_of_mem _ h4)

/-- Inserting preserves the ascending-key invariant. -/
theorem insertEvent_sorted {C : Type} {m : ScheduleMap C} (hm : MapSorted m)
    (t : Timespec) (e : Event C) : MapSorted (m.insertEvent t e) := by
  induction m with
  | nil =>
    simp only [ScheduleMap.insertEvent, MapSorted]
    exact List.pairwise_singleton _ _
  | cons p rest ih =>
    obtain ⟨k, es⟩ := p
    have hhead := (List.pairwise_cons.mp hm).1
    have hrest : MapSorted rest := (List.pairwise_cons.mp hm).2
    simp only [ScheduleMap.insertEvent]
    by_cases h1 : t = k
    · rw [if_pos h1]
      exact List.pairwise_cons.mpr ⟨hhead, hrest⟩
    · rw [if_neg h1]
      by_cases h3 : t < k
      · rw [if_pos h3]
        refine List.pairwise_cons.mpr ⟨?_, hm⟩
        intro q hq
        rcases List.mem_cons.mp hq with h2 | h2
        · rw [h2]
          exact h3
        · exact ts_lt_trans h3 (hhead q h2)
      · rw [if_neg h3]
        refine List.pairwise_cons.mpr ⟨?_, ih hrest⟩
        intro q hq
        rcases insertEvent_mem_fst hq with h4 | h4
        · rw [h4]
          exact ts_gt_of_ne_of_not_lt h1 h3
        · exact hhead q h4

/-- Removing a batch of keys one by one is filtering them out at once. -/
theorem foldl_removeKey_eq_filter {C : Type} (ks : List Timespec) (m : ScheduleMap C) :
    ks.foldl (fun m2 t => ScheduleMap.removeKey m2 t) m =
      m.filter (fun p => decide (p.1 ∉ ks)) := by
  induction ks generalizing m with
  | nil =>
    simp only [List.foldl_nil]
    have : ∀ p ∈ m, decide ((p : Timespec × List (Event C)).1 ∉ ([] : List Timespec)) =
        (fun _ => true) p := by
      intro p _
      simp
    rw [List.filter_congr this, List.filter_true]
  | cons k ks ih =>
    simp only [List.foldl_cons]
    rw [ih, ScheduleMap.removeKey, List.filter_filter]
    apply List.filter_congr
    intro p _
    by_cases h1 : p.1 = k
    · simp [h1]
    · by_cases h2 : p.1 ∈ ks <;> simp [h1, h2]

/-- The fire loop of kick_event visits exactly the due entries of the
map, in map order, firing each key vector in order. -/
theorem kick_trace_eq {C : Type} (m : ScheduleMap C) (now : Timespec) (hm : MapSorted m) :
    ((m.map Prod.fst).filter (fun k => decide (k ≤ now))).flatMap (fun t =>
        match m.getVal t with
        | some es => es.map (fun e => (t, e))
        | none => []) =
      (m.filter (fun p => decide (p.1 ≤ now))).flatMap
        (fun p => p.2.map (fun e => (p.1, e))) := by
  induction m with
  | nil => rfl
  | cons p rest ih =>
    obtain ⟨k, es⟩ := p
    have hhead := (List.pairwise_cons.mp hm).1
    have hrest : MapSorted rest := (List.pairwise_cons.mp hm).2
    have hcong : ∀ t ∈ (rest.map Prod.fst).filter (fun k2 => decide (k2 ≤ now)),
        (match ScheduleMap.getVal ((k, es) :: rest) t with
          | some es2 => es2.map (fun e => (t, e))
          | none => []) =
        (match ScheduleMap.getVal rest t with
          | some es2 => es2.map (fun e => (t, e))
          | none => []) := by
      intro t ht
      have ht2 := (List.mem_filter.mp ht).1
      obtain ⟨q, hq, hq2⟩ := List.mem_map.mp ht2
      have hkt : ¬ (k = t) := by
        intro hh
        have : k < t := by
          have := hhead q hq
          rw [hq2] at this
          exact this
        rw [hh] at this
        exact ts_lt_irrefl t this
      simp only [ScheduleMap.getVal]
      rw [if_neg hkt]
    have hget : ScheduleMap.getVal ((k, es) :: rest) k = some es := by
      simp [ScheduleMap.getVal]
    simp only [List.map_cons]
    rw [List.filter_cons, List.filter_cons]
    by_cases hk : k ≤ now
    · rw [if_pos (decide_eq_true hk), if_pos (decide_eq_true hk)]
      simp only [List.flatMap_cons, hget]
      rw [flatMapCongr hcong, ih hrest]
    · rw [if_neg (by simpa using hk), if_neg (by simpa using hk)]
      rw [flatMapCongr hcong]
      exact ih hrest

/-- The update loop preserves the ascending-key invariant and appends,
under every key, exactly the events of the walked list that resolve to
that key, in list order. -/
theorem updateLoop_lookup {C : Type} (rng : Nat → Int) (ref : Timespec)
    (lt : LocalTimeState) (evs : List (Event C)) :
    ∀ (i : Nat) (m : ScheduleMap C) (hints m2h : List (Timespec × Event C))
      (m2 : ScheduleMap C),
      MapSorted m →
      Schedule.updateLoop rng ref lt evs i m hints = some (m2, m2h) →
      MapSorted m2 ∧
        ∀ t, m2.lookupList t = m.lookupList t ++ selectAt rng ref lt evs i t := by
  induction evs with
  | nil =>
    intro i m hints m2h m2 hm h
    simp only [Schedule.updateLoop, Option.some.injEq, Prod.mk.injEq] at h
    obtain ⟨h1, _⟩ := h
    subst h1
    refine ⟨hm, fun t => ?_⟩
    simp [selectAt]
  | cons e rest ih =>
    intro i m hints m2h m2 hm h
    cases hc : e.create_timestamp (rng i) ref lt with
    | none =>
      simp only [Schedule.updateLoop, hc] at h
      exact absurd h (by simp)
    | some o =>
      cases o with
      | none =>
        simp only [Schedule.updateLoop, hc] at h
        obtain ⟨hs, hl⟩ := ih (i + 1) m hints m2h m2 hm h
        refine ⟨hs, fun t => ?_⟩
        rw [hl t]
        simp only [selectAt]
        rw [if_neg (by rw [hc]; simp)]
        simp
      | some t0 =>
        simp only [Schedule.updateLoop, hc] at h
        obtain ⟨hs, hl⟩ :=
          ih (i + 1) (m.insertEvent t0 e) (hints ++ [(t0, e)]) m2h m2
            (insertEvent_sorted hm t0 e) h
        refine ⟨hs, fun t => ?_⟩
        rw [hl t]
        by_cases ht : t = t0
        · subst ht
          rw [insertEvent_lookup_eq hm t e]
          simp only [selectAt]
          rw [if_pos (by rw [hc])]
          simp
        · rw [insertEvent_lookup_ne m t0 e ht]
          simp only [selectAt]
          rw [if_neg (by
            rw [hc]
            simp only [Option.some.injEq]
            exact fun hh => ht hh.symm)]
          simp

/-- Unpacking a successful update_schedule call: the refreshed zone
state, the loop result, and the shape of the updated schedule. -/
theorem update_schedule_inv {C : Type} {s : Schedule C} {ref : Timespec} {rng : Nat → Int}
    {s2 : Schedule C} {hints : List (Timespec × Event C)}
    (h : s.update_schedule ref rng = some (s2, hints)) :
    ∃ lt m2, s.refreshLocaltime ref = some lt ∧
      Schedule.updateLoop rng ref lt s.events 0 s.schedule [] = some (m2, hints) ∧
      s2 = { s with localtime := lt, schedule := m2 } := by
  unfold Schedule.update_schedule at h
  split at h
  · exact absurd h (by simp)
  · rename_i lt hr
    cases hl : Schedule.updateLoop rng ref lt s.events 0 s.schedule [] with
    | none =>
      rw [hl] at h
      exact absurd h (by simp)
    | some p =>
      obtain ⟨m2, hints2⟩ := p
      rw [hl] at h
      have h2 : some (({ s with localtime := lt, schedule := m2 } : Schedule C), hints2) =
          some (s2, hints) := h
      simp only [Option.some.injEq, Prod.mk.injEq] at h2
      obtain ⟨ha, hb⟩ := h2
      subst hb
      exact ⟨lt, m2, hr, hl, ha.symm⟩

/-- Claim C2: kick_event fires exactly the pending entries whose key is
at or before now, walking keys in ascending map order and, within one
key, the stored vector in insertion order, handing each callback the key
timestamp and the stored event (its handler and context); it then
removes precisely those keys, leaves the registered events untouched,
and returns the smallest remaining key, or none once the map is empty. -/
theorem C2_kick_event {C : Type} (s : Schedule C) (now : Timespec)
    (hs : MapSorted s.schedule) :
    (s.kick_event now).2.1 =
      (s.schedule.filter (fun p => decide (p.1 ≤ now))).flatMap
        (fun p => p.2.map (fun e => (p.1, e)))
    ∧ (s.kick_event now).1.schedule =
        s.schedule.filter (fun p => !(decide (p.1 ≤ now)))
    ∧ (s.kick_event now).1.events = s.events
    ∧ ((s.kick_event now).2.2 = none ↔ (s.kick_event now).1.schedule = [])
    ∧ (∀ rk, (s.kick_event now).2.2 = some rk →
        rk ∈ (s.kick_event now).1.schedule.map Prod.fst ∧
          ∀ k2 ∈ (s.kick_event now).1.schedule.map Prod.fst, rk ≤ k2) := by
  have hpt : s.schedule.filter (fun p =>
        decide (p.1 ∉ (s.schedule.map Prod.fst).filter (fun k => decide (k ≤ now)))) =
      s.schedule.filter (fun p => !(decide (p.1 ≤ now))) := by
    apply List.filter_congr
    intro p hp
    by_cases hle : p.1 ≤ now
    · have hmem : p.1 ∈ (s.schedule.map Prod.fst).filter (fun k => decide (k ≤ now)) :=
        List.mem_filter.mpr ⟨List.mem_map.mpr ⟨p, hp, rfl⟩, decide_eq_true hle⟩
      simp [hmem, hle]
    · have hmem : p.1 ∉ (s.schedule.map Prod.fst).filter (fun k => decide (k ≤ now)) := by
        intro hmm
        exact hle (of_decide_eq_true (List.mem_filter.mp hmm).2)
      simp [hmem, hle]
  have hnew : (s.kick_event now).1.schedule =
      s.schedule.filter (fun p => !(decide (p.1 ≤ now))) := by
    simp only [Schedule.kick_event]
    rw [foldl_removeKey_eq_filter]
    exact hpt
  have hsorted2 : MapSorted ((s.kick_event now).1.schedule) := by
    rw [hnew]
    exact hs.sublist (List.filter_sublist s.schedule)
  refine ⟨?_, hnew, rfl, ?_, ?_⟩
  · simp only [Schedule.kick_event]
    exact kick_trace_eq s.schedule now hs
  · have hkr : (s.kick_event now).2.2 = ((s.kick_event now).1.schedule.map Prod.fst).head? :=
      rfl
    rw [hkr]
    cases hh : (s.kick_event now).1.schedule with
    | nil => simp
    | cons q qs =>
      simp only [List.map_cons, List.head?_cons]
      constructor
      · intro hcon
        exact absurd hcon (by simp)
      · intro hcon
        exact absurd hcon (by simp)
  · intro rk hrk
    have hkr : (s.kick_event now).2.2 = ((s.kick_event now).1.schedule.map Prod.fst).head? :=
      rfl
    rw [hkr] at hrk
    cases hh : (s.kick_event now).1.schedule with
    | nil =>
      rw [hh] at hrk
      exact absurd hrk (by simp)
    | cons q qs =>
      rw [hh] at hrk
      simp only [List.map_cons, List.head?_cons, Option.some.injEq] at hrk
      subst hrk
      rw [hh] at hsorted2
      have hhead := (List.pairwise_cons.mp hsorted2).1
      refine ⟨by simp, ?_⟩
      intro k2 hk2
      simp only [List.map_cons, List.mem_cons] at hk2
      rcases hk2 with h1 | h1
      · rw [h1]
        exact ts_le_refl _
      · obtain ⟨q2, hq2, hq3⟩ := List.mem_map.mp h1
        rw [← hq3]
        exact ts_lt_le (hhead q2 hq2)

/-- Witness for C2 at a concrete two-key pending map. -/
theorem C2_kick_event_witness :
    MapSorted kickSchedule.schedule
    ∧ ((kickSchedule.kick_event (Timespec.new 10 0)).2.1 =
        (kickSchedule.schedule.filter (fun p => decide (p.1 ≤ Timespec.new 10 0))).flatMap
          (fun p => p.2.map (fun e => (p.1, e)))
      ∧ (kickSchedule.kick_event (Timespec.new 10 0)).1.schedule =
          kickSchedule.schedule.filter (fun p => !(decide (p.1 ≤ Timespec.new 10 0)))
      ∧ (kickSchedule.kick_event (Timespec.new 10 0)).1.events = kickSchedule.events
      ∧ ((kickSchedule.kick_event (Timespec.new 10 0)).2.2 = none ↔
          (kickSchedule.kick_event (Timespec.new 10 0)).1.schedule = [])
      ∧ (∀ rk, (kickSchedule.kick_event (Timespec.new 10 0)).2.2 = some rk →
          rk ∈ (kickSchedule.kick_event (Timespec.new 10 0)).1.schedule.map Prod.fst ∧
            ∀ k2 ∈ (kickSchedule.kick_event (Timespec.new 10 0)).1.schedule.map Prod.fst,
              rk ≤ k2)) :=
  ⟨by decide, C2_kick_event kickSchedule (Timespec.new 10 0) (by decide)⟩

/-- A key absent from the map contributes no entries to the due flatten. -/
theorem due_entries_filter_not_mem {C : Type} {m : ScheduleMap C} {t : Timespec}
    (h : t ∉ m.map Prod.fst) (now : Timespec) :
    ((m.filter (fun p => decide (p.1 ≤ now))).flatMap
        (fun p => p.2.map (fun e => (p.1, e)))).filter (fun q => decide (q.1 = t)) = [] := by
  rw [List.filter_eq_nil_iff]
  intro q hq
  obtain ⟨p, hp, hq2⟩ := List.mem_flatMap.mp hq
  obtain ⟨e, _, hq3⟩ := List.mem_map.mp hq2
  have hpm : p ∈ m := (List.mem_filter.mp hp).1
  have : p.1 ∈ m.map Prod.fst := List.mem_map.mpr ⟨p, hpm, rfl⟩
  rw [← hq3]
  simp only [decide_eq_true_eq]
  intro hh
  rw [hh] at this
  exact h this

/-- The kick trace restricted to one due key is exactly the vector stored
there, in insertion order. -/
theorem due_entries_filter_key {C : Type} {m : ScheduleMap C} (hm : MapSorted m)
    {t now : Timespec} (hnow : t ≤ now) :
    ((m.filter (fun p => decide (p.1 ≤ now))).flatMap
        (fun p => p.2.map (fun e => (p.1, e)))).filter (fun q => decide (q.1 = t)) =
      (m.lookupList t).map (fun e => (t, e)) := by
  induction m with
  | nil => rfl
  | cons p rest ih =>
    obtain ⟨k, es⟩ := p
    have hhead := (List.pairwise_cons.mp hm).1
    have hrest : MapSorted rest := (List.pairwise_cons.mp hm).2
    rw [List.filter_cons]
    by_cases hk : k ≤ now
    · rw [if_pos (decide_eq_true hk)]
      simp only [List.flatMap_cons, List.filter_append]
      by_cases hkt : k = t
      · subst hkt
        have h1 : (es.map (fun e => (k, e))).filter (fun q => decide (q.1 = k)) =
            es.map (fun e => (k, e)) := by
          rw [List.filter_eq_self]
          intro q hq
          obtain ⟨e, _, hq2⟩ := List.mem_map.mp hq
          rw [← hq2]
          simp
        have hnot : k ∉ rest.map Prod.fst := by
          intro hmem
          obtain ⟨q2, hq2, hq3⟩ := List.mem_map.mp hmem
          have := hhead q2 hq2
          rw [hq3] at this
          exact ts_lt_irrefl k this
        have hlook : ScheduleMap.lookupList ((k, es) :: rest) k = es := by
          simp [ScheduleMap.lookupList]
        rw [h1, due_entries_filter_not_mem hnot now, List.append_nil, hlook]
      · have h1 : (es.map (fun e => (k, e))).filter (fun q => decide (q.1 = t)) = [] := by
          rw [List.filter_eq_nil_iff]
          intro q hq
          obtain ⟨e, _, hq2⟩ := List.mem_map.mp hq
          rw [← hq2]
          simpa using hkt
        have hlook : ScheduleMap.lookupList ((k, es) :: rest) t =
            ScheduleMap.lookupList rest t := by
          simp [ScheduleMap.lookupList, hkt]
        rw [h1, List.nil_append, ih hrest, hlook]
    · rw [if_neg (by simpa using hk)]
      have hkt : ¬ (k = t) := by
        intro hh
        rw [hh] at hk
        exact hk hnow
      have hlook : ScheduleMap.lookupList ((k, es) :: rest) t =
          ScheduleMap.lookupList rest t := by
        simp [ScheduleMap.lookupList, hkt]
      rw [ih hrest, hlook]

/-- Claim C3: events resolving to an identical timestamp in one
update_schedule call are filed under that key in registration order, and
a subsequent kick_event covering that key fires them in exactly that
order; this holds for every key, hence also when independently resolved
fixed events land on one instant. -/
theorem C3_registration_order {C : Type} (s : Schedule C) (ref now t : Timespec)
    (rng : Nat → Int) (s2 : Schedule C) (hints : List (Timespec × Event C))
    (hempty : s.schedule = [])
    (hupd : s.update_schedule ref rng = some (s2, hints))
    (hnow : t ≤ now) :
    s2.schedule.lookupList t = selectAt rng ref s2.localtime s.events 0 t
    ∧ ((s2.kick_event now).2.1.filter (fun q => decide (q.1 = t))) =
        (selectAt rng ref s2.localtime s.events 0 t).map (fun e => (t, e)) := by
  obtain ⟨lt, m2, hr, hl, hshape⟩ := update_schedule_inv hupd
  rw [hempty] at hl
  have hsorted0 : MapSorted ([] : ScheduleMap C) := List.Pairwise.nil
  obtain ⟨hsorted2, hlook⟩ :=
    updateLoop_lookup rng ref lt s.events 0 [] [] hints m2 hsorted0 hl
  have hlt : s2.localtime = lt := by rw [hshape]
  have hsch : s2.schedule = m2 := by rw [hshape]
  have hfst : s2.schedule.lookupList t = selectAt rng ref s2.localtime s.events 0 t := by
    rw [hsch, hlt, hlook t]
    rfl
  refine ⟨hfst, ?_⟩
  have htr : (s2.kick_event now).2.1 =
      (s2.schedule.filter (fun p => decide (p.1 ≤ now))).flatMap
        (fun p => p.2.map (fun e => (p.1, e))) := by
    simp only [Schedule.kick_event]
    exact kick_trace_eq s2.schedule now (by rw [hsch]; exact hsorted2)
  rw [htr, due_entries_filter_key (by rw [hsch]; exact hsorted2) hnow, hfst]

/-- Witness for C3: the three events registered at the same fixed moment
with contexts 0, 1, 0 all resolve to 02:00 and are filed and fired in
registration order. -/
theorem C3_registration_order_witness :
    (abaSchedule.schedule = ([] : ScheduleMap Nat)
      ∧ abaSchedule.update_schedule (Timespec.new 0 0) (fun _ => 0) =
          some (abaUpdated, abaHints)
      ∧ Timespec.new 7200 0 ≤ Timespec.new 86400 0)
    ∧ (abaUpdated.schedule.lookupList (Timespec.new 7200 0) =
        selectAt (fun _ => 0) (Timespec.new 0 0) abaUpdated.localtime abaSchedule.events 0
          (Timespec.new 7200 0)
      ∧ ((abaUpdated.kick_event (Timespec.new 86400 0)).2.1.filter
          (fun q => decide (q.1 = Timespec.new 7200 0))) =
        (selectAt (fun _ => 0) (Timespec.new 0 0) abaUpdated.localtime abaSchedule.events 0
          (Timespec.new 7200 0)).map (fun e => (Timespec.new 7200 0, e))) :=
  ⟨⟨rfl, rfl, by decide⟩,
    C3_registration_order abaSchedule (Timespec.new 0 0) (Timespec.new 86400 0)
      (Timespec.new 7200 0) (fun _ => 0) abaUpdated abaHints rfl rfl (by decide)⟩

/-- Claim C6: update_schedule rebuilds the cached zone window exactly
when the cache is Unknown or when a pending transition instant is at or
before the incoming reference day, and keeps the cache untouched in
every other case; a rebuild yields NoChangePending of the current offset
when the source reports no upcoming transition and ChangePending of the
reported instant, current offset and next offset when it reports one. -/
theorem C6_refresh_policy {C : Type} (s : Schedule C) (ref : Timespec) (rng : Nat → Int)
    (s2 : Schedule C) (hints : List (Timespec × Event C))
    (h : s.update_schedule ref rng = some (s2, hints)) :
    (s.localtime = LocalTimeState.Unknown → s.new_change_state ref = some s2.localtime)
    ∧ (∀ tt b a2, s.localtime = LocalTimeState.ChangePending tt b a2 →
        ((tt ≤ ref → s.new_change_state ref = some s2.localtime)
          ∧ (¬ tt ≤ ref → s2.localtime = s.localtime)))
    ∧ (∀ info, s.localtime = LocalTimeState.NoChangePending info →
        s2.localtime = s.localtime)
    ∧ (∀ ts actual, s.zoneinfo.get_actual_zoneinfo ts = some actual →
        ((s.zoneinfo.get_next_transition_time ts = none →
            s.new_change_state ts = some (LocalTimeState.NoChangePending actual))
          ∧ (∀ nt nz, s.zoneinfo.get_next_transition_time ts = some (nt, nz) →
            s.new_change_state ts = some (LocalTimeState.ChangePending nt actual nz)))) := by
  obtain ⟨lt, m2, hr, _, hshape⟩ := update_schedule_inv h
  have hlt2 : s2.localtime = lt := by rw [hshape]
  refine ⟨?_, ?_, ?_, ?_⟩
  · intro hu
    rw [hlt2]
    have hr2 : s.new_change_state ref = some lt := by
      simpa [Schedule.refreshLocaltime, hu] using hr
    exact hr2
  · intro tt b a2 hcp
    have hr2 : (if tt ≤ ref then s.new_change_state ref else some s.localtime) = some lt := by
      simpa [Schedule.refreshLocaltime, hcp] using hr
    constructor
    · intro hle
      rw [hlt2]
      rw [if_pos hle] at hr2
      exact hr2
    · intro hnle
      rw [hlt2]
      rw [if_neg hnle] at hr2
      injection hr2 with hr2
      exact hr2.symm
  · intro info hnc
    rw [hlt2]
    have hr2 : some s.localtime = some lt := by
      simpa [Schedule.refreshLocaltime, hnc] using hr
    injection hr2 with hr2
    exact hr2.symm
  · intro ts actual hact
    constructor
    · intro hnone
      rw [Schedule.new_change_state, hact, hnone]
    · intro nt nz hsome
      rw [Schedule.new_change_state, hact, hsome]

/-- Witness for C6: an unresolved schedule over a source with no
transition resolves to the stable window on its first update. -/
theorem C6_refresh_policy_witness :
    freshSchedule.update_schedule (Timespec.new 0 0) (fun _ => 0) = some (freshUpdated, [])
    ∧ ((freshSchedule.localtime = LocalTimeState.Unknown →
        freshSchedule.new_change_state (Timespec.new 0 0) = some freshUpdated.localtime)
      ∧ (∀ tt b a2, freshSchedule.localtime = LocalTimeState.ChangePending tt b a2 →
          ((tt ≤ Timespec.new 0 0 →
            freshSchedule.new_change_state (Timespec.new 0 0) = some freshUpdated.localtime)
            ∧ (¬ tt ≤ Timespec.new 0 0 → freshUpdated.localtime = freshSchedule.localtime)))
      ∧ (∀ info, freshSchedule.localtime = LocalTimeState.NoChangePending info →
          freshUpdated.localtime = freshSchedule.localtime)
      ∧ (∀ ts actual, freshSchedule.zoneinfo.get_actual_zoneinfo ts = some actual →
          ((freshSchedule.zoneinfo.get_next_transition_time ts = none →
              freshSchedule.new_change_state ts =
                some (LocalTimeState.NoChangePending actual))
            ∧ (∀ nt nz, freshSchedule.zoneinfo.get_next_transition_time ts = some (nt, nz) →
              freshSchedule.new_change_state ts =
                some (LocalTimeState.ChangePending nt actual nz))))) :=
  ⟨rfl,
    C6_refresh_policy freshSchedule (Timespec.new 0 0) (fun _ => 0) freshUpdated [] rfl⟩

/-- Counterexample to claim C7 as stated: updating the one-event schedule
twice for the same reference day leaves the event listed twice under its
key, so the pending map after the second call differs from the map after
the first call. -/
theorem C7_counterexample :
    ((fixedSchedule.update_schedule (Timespec.new 0 0) (fun _ => 0)).bind (fun p =>
        (p.1.update_schedule (Timespec.new 0 0) (fun _ => 0)).map (fun q =>
          q.1.schedule.map (fun kv => (kv.1, kv.2.map (fun e => e.context)))))) =
      some [(Timespec.new 7200 0, [5, 5])]
    ∧ ((fixedSchedule.update_schedule (Timespec.new 0 0) (fun _ => 0)).map (fun p =>
        p.1.schedule.map (fun kv => (kv.1, kv.2.map (fun e => e.context))))) =
      some [(Timespec.new 7200 0, [5])]
    ∧ ([(Timespec.new 7200 0, [(5:Nat), 5])] : List (Timespec × List Nat)) ≠
      [(Timespec.new 7200 0, [5])] :=
  ⟨by decide, by decide, by decide⟩

/-- Claim C7 (amended): a second update_schedule call for the same
reference day over an unchanged stable window does not leave the pending
map unchanged; it appends a second copy of every scheduled entry, so the
vector under each key is the first call vector concatenated with
itself. -/
theorem C7_double_update {C : Type} (s : Schedule C) (ref t : Timespec) (rng : Nat → Int)
    (info : ZoneInfoElement) (s1 s2 : Schedule C) (h1s h2s : List (Timespec × Event C))
    (hlt : s.localtime = LocalTimeState.NoChangePending info)
    (hempty : s.schedule = [])
    (h1 : s.update_schedule ref rng = some (s1, h1s))
    (h2 : s1.update_schedule ref rng = some (s2, h2s)) :
    s2.schedule.lookupList t = s1.schedule.lookupList t ++ s1.schedule.lookupList t := by
  obtain ⟨lt1, m1, hr1, hl1, hshape1⟩ := update_schedule_inv h1
  have hlt1 : lt1 = s.localtime := by
    have hr2 : some s.localtime = some lt1 := by
      simpa [Schedule.refreshLocaltime, hlt] using hr1
    injection hr2 with hr2
    exact hr2.symm
  rw [hempty] at hl1
  obtain ⟨hs1, hlook1⟩ :=
    updateLoop_lookup rng ref lt1 s.events 0 [] [] h1s m1 List.Pairwise.nil hl1
  obtain ⟨lt2, m2, hr2, hl2, hshape2⟩ := update_schedule_inv h2
  have he1 : s1.events = s.events := by rw [hshape1]
  have hsch1 : s1.schedule = m1 := by rw [hshape1]
  have hloc1 : s1.localtime = lt1 := by rw [hshape1]
  have hlt2 : lt2 = lt1 := by
    have hx : s1.localtime = LocalTimeState.NoChangePending info := by
      rw [hloc1, hlt1, hlt]
    have hr3 : some s1.localtime = some lt2 := by
      simpa [Schedule.refreshLocaltime, hx] using hr2
    injection hr3 with hr3
    rw [← hr3, hloc1]
  rw [he1, hsch1, hlt2] at hl2
  obtain ⟨_, hlook2⟩ :=
    updateLoop_lookup rng ref lt1 s.events 0 m1 [] h2s m2 hs1 hl2
  have hsch2 : s2.schedule = m2 := by rw [hshape2]
  rw [hsch2, hsch1, hlook2 t, hlook1 t]
  simp [ScheduleMap.lookupList]

/-- Witness for the amended C7: the one-event schedule updated twice for
the epoch day lists its event twice under the 02:00 key. -/
theorem C7_double_update_witness :
    (fixedSchedule.localtime = LocalTimeState.NoChangePending ⟨0⟩
      ∧ fixedSchedule.schedule = ([] : ScheduleMap Nat)
      ∧ fixedSchedule.update_schedule (Timespec.new 0 0) (fun _ => 0) =
          some (fixedUpdated1, fixedHints)
      ∧ fixedUpdated1.update_schedule (Timespec.new 0 0) (fun _ => 0) =
          some (fixedUpdated2, fixedHints))
    ∧ fixedUpdated2.schedule.lookupList (Timespec.new 7200 0) =
        fixedUpdated1.schedule.lookupList (Timespec.new 7200 0) ++
          fixedUpdated1.schedule.lookupList (Timespec.new 7200 0) :=
  ⟨⟨rfl, rfl, rfl, rfl⟩,
    C7_double_update fixedSchedule (Timespec.new 0 0) (Timespec.new 7200 0) (fun _ => 0)
      ⟨0⟩ fixedUpdated1 fixedUpdated2 fixedHints fixedHints rfl rfl rfl rfl⟩

/-- Claim C8 evidence: the pending map produced by update_schedule
depends on the values drawn from the ambient thread-local generator,
which is not a field of the Schedule and not a constructor parameter:
the same schedule value and the same caller inputs yield different
pending keys under different ambient draws. -/
theorem C8_thread_rng_dependence :
    (fuzzySchedule.update_schedule (Timespec.new 0 0) (fun _ => 0)).map
      (fun p => p.1.schedule.map Prod.fst) = some [Timespec.new 7200 0]
    ∧ (fuzzySchedule.update_schedule (Timespec.new 0 0) (fun _ => 1)).map
      (fun p => p.1.schedule.map Prod.fst) = some [Timespec.new 7201 0]
    ∧ (some [Timespec.new 7200 0] : Option (List Timespec)) ≠ some [Timespec.new 7201 0] :=
  ⟨by decide, by decide, by decide⟩

end DailySched
